import Mathlib

/-!
Formal model of the chunked, resumable upload core of the prism-fe repository.

The definitions below are shallow embeddings of the TypeScript source:

* `sliceBlobIntoChunks` embeds `sliceBlobIntoChunks` (src/utils/resumable-upload.ts,
  bundled in src/types/recording.ts): a `while (start < blob.size)` loop that
  slices `[start, min (start + chunkSize) size)` off the payload.  A `Blob` is
  represented by its byte length; a chunk by its `[start, stop)` byte range.
* `chunkBlob` embeds the range computation of `chunkBlob` (src/utils/chunked-upload.ts):
  a `for (i = 0; i < totalChunks; i++)` loop over `totalChunks = ceil(size / chunkSize)`.
* `calculateStartingChunkIndex` embeds the function of the same name.
* `uploadChunk` embeds the retry loop of `uploadChunk`
  (src/utils/resumable-upload.ts); network attempts are an oracle
  `Nat → Except String ChunkUploadResult` giving the result of each attempt.
* `uploadChunks`, `uploadFlow`, `resumeFlow`, `resetFlow` embed the hook
  `useResumableUpload` (src/hooks/useAuthUser.ts bundle) as pure trace-producing
  functions: every `setState`, `setProgress`, chunk send, completion call and
  sessionStorage write becomes an event in the produced list.
* `DStep` / `DReach` embed the dual upload session (src/hooks/useDualUpload.ts):
  the two stream walks of `Promise.all` become an interleaving step relation.

Machine numbers are modelled as `Nat` (byte counts never overflow the JS safe
range for recording payloads); the float `percentage` is modelled in `ℚ`.
The TypeScript slicing loop does not terminate for `chunkSize = 0`; the
embedding returns `[]` in that case, and every claim assumes `chunkSize > 0`
(the spec precondition).
-/

namespace PrismFE

/-- A chunk: the byte range `[start, stop)` that `blob.slice(start, end)`
views in the source. -/
structure Chunk where
  start : Nat
  stop : Nat
deriving DecidableEq, Repr

/-- Chunk length in bytes. -/
def Chunk.len (c : Chunk) : Nat := c.stop - c.start

/-- The slicing loop of `sliceBlobIntoChunks`: `while (start < size) { end =
min(start + chunkSize, size); push [start, end); start = end }`.  The extra
`0 < chunkSize` guard makes the loop terminate in Lean; the source diverges
for `chunkSize = 0`. -/
def sliceFrom (size chunkSize start : Nat) : List Chunk :=
  if _h : start < size ∧ 0 < chunkSize then
    Chunk.mk start (min (start + chunkSize) size) ::
      sliceFrom size chunkSize (min (start + chunkSize) size)
  else []
termination_by size - start
decreasing_by
  omega

/-- `sliceBlobIntoChunks(blob, chunkSize)` from src/utils/resumable-upload.ts,
on a blob of byte length `size`. -/
def sliceBlobIntoChunks (size chunkSize : Nat) : List Chunk :=
  sliceFrom size chunkSize 0

/-- `Math.ceil(a / b)` on naturals. -/
def ceilDiv (a b : Nat) : Nat := (a + b - 1) / b

/-- The byte ranges computed by `chunkBlob` (src/utils/chunked-upload.ts):
`totalChunks = Math.ceil(totalSize / chunkSize)`, chunk `i` covers
`[i * chunkSize, min (i * chunkSize + chunkSize) totalSize)`. -/
def chunkBlob (size chunkSize : Nat) : List Chunk :=
  (List.range (ceilDiv size chunkSize)).map fun i =>
    Chunk.mk (i * chunkSize) (min (i * chunkSize + chunkSize) size)

/-- `calculateStartingChunkIndex(uploadedBytes, chunkSize)` from
src/utils/resumable-upload.ts: `0` when nothing is uploaded, else
`Math.floor(uploadedBytes / chunkSize)`. -/
def calculateStartingChunkIndex (uploadedBytes chunkSize : Nat) : Nat :=
  if uploadedBytes = 0 then 0 else uploadedBytes / chunkSize

theorem ceilDiv_zero_left (b : Nat) (hb : 0 < b) : ceilDiv 0 b = 0 := by
  unfold ceilDiv
  have : b - 1 < b := by omega
  simpa using Nat.div_eq_of_lt this

theorem ceilDiv_eq_one (a b : Nat) (ha : 0 < a) (hab : a ≤ b) :
    ceilDiv a b = 1 := by
  unfold ceilDiv
  refine Nat.div_eq_of_lt_le ?_ ?_ <;> omega

theorem ceilDiv_add_right (a b : Nat) (hb : 0 < b) :
    ceilDiv (a + b) b = ceilDiv a b + 1 := by
  unfold ceilDiv
  have h : a + b + b - 1 = (a + b - 1) + b := by omega
  rw [h, Nat.add_div_right _ hb]

theorem ceilDiv_pos (a b : Nat) (ha : 0 < a) (hb : 0 < b) :
    0 < ceilDiv a b := by
  unfold ceilDiv
  have : b * 1 ≤ a + b - 1 := by omega
  have := Nat.le_div_iff_mul_le hb |>.2 (by omega : 1 * b ≤ a + b - 1)
  omega

/-- `size ≤ ceilDiv size C * C`: the chunk grid covers the payload. -/
theorem le_ceilDiv_mul (size C : Nat) (hC : 0 < C) :
    size ≤ ceilDiv size C * C := by
  unfold ceilDiv
  have h1 := Nat.div_add_mod (size + C - 1) C
  have h2 : (size + C - 1) % C < C := Nat.mod_lt _ hC
  have h3 : C * ((size + C - 1) / C) = ((size + C - 1) / C) * C := Nat.mul_comm _ _
  omega

/-- `(ceilDiv size C) * C < size + C`: the grid does not overshoot by a chunk. -/
theorem ceilDiv_mul_lt (size C : Nat) (hC : 0 < C) :
    ceilDiv size C * C < size + C := by
  unfold ceilDiv
  have h1 := Nat.div_mul_le_self (size + C - 1) C
  omega

/-- Closed form for the slicing loop: starting at `start`, it walks the
chunk grid anchored at `start` until `size` is covered. -/
theorem sliceFrom_eq (C : Nat) (hC : 0 < C) :
    ∀ n size start, size - start ≤ n →
      sliceFrom size C start =
        (List.range (ceilDiv (size - start) C)).map fun i =>
          Chunk.mk (start + i * C) (min (start + i * C + C) size) := by
  intro n
  induction n with
  | zero =>
    intro size start h
    rw [sliceFrom.eq_def]
    have hss : ¬ start < size := by omega
    rw [dif_neg (by omega)]
    have : size - start = 0 := by omega
    rw [this, ceilDiv_zero_left C hC]
    simp
  | succ n ih =>
    intro size start h
    by_cases hss : start < size
    · rw [sliceFrom.eq_def, dif_pos ⟨hss, hC⟩]
      by_cases hend : size ≤ start + C
      · -- final chunk: the recursive call starts at `size` and is empty
        have hmin : min (start + C) size = size := by omega
        rw [hmin]
        have hrec : sliceFrom size C size = [] := by
          rw [sliceFrom.eq_def, dif_neg (by omega)]
        rw [hrec]
        have h1 : ceilDiv (size - start) C = 1 :=
          ceilDiv_eq_one _ _ (by omega) (by omega)
        rw [h1]
        have hz : min (start + 0 * C + C) size = size := by omega
        simp [List.range_succ, hz]
        omega
      · -- intermediate chunk: recurse from `start + C`
        have hmin : min (start + C) size = start + C := by omega
        rw [hmin]
        have hrec := ih size (start + C) (by omega)
        rw [hrec]
        have hsz : size - start = (size - (start + C)) + C := by omega
        rw [hsz, ceilDiv_add_right _ _ hC, List.range_succ_eq_map]
        simp only [List.map_cons, List.map_map]
        congr 1
        · simp only [Nat.zero_mul, Nat.add_zero]
          rw [hmin]
        · apply List.map_congr_left
          intro i _
          have h2 : start + C + i * C = start + (i + 1) * C := by ring
          simp only [Function.comp_apply, Nat.succ_eq_add_one]
          rw [h2]
    · rw [sliceFrom.eq_def, dif_neg (by omega)]
      have : size - start = 0 := by omega
      rw [this, ceilDiv_zero_left C hC]
      simp

/-- The two slicers in the source compute the same byte ranges. -/
theorem chunkBlob_eq_sliceBlobIntoChunks (size C : Nat) (hC : 0 < C) :
    chunkBlob size C = sliceBlobIntoChunks size C := by
  rw [sliceBlobIntoChunks, sliceFrom_eq C hC size size 0 (by omega)]
  unfold chunkBlob
  simp

/-- Sum of chunk lengths produced by the slicing loop from `start`. -/
theorem sliceFrom_len_sum (C : Nat) (hC : 0 < C) :
    ∀ n size start, size - start ≤ n →
      ((sliceFrom size C start).map Chunk.len).sum = size - start := by
  intro n
  induction n with
  | zero =>
    intro size start h
    rw [sliceFrom.eq_def, dif_neg (by omega)]
    simp
    omega
  | succ n ih =>
    intro size start h
    by_cases hss : start < size
    · rw [sliceFrom.eq_def, dif_pos ⟨hss, hC⟩]
      simp only [List.map_cons, List.sum_cons]
      rw [ih size (min (start + C) size) (by omega)]
      simp only [Chunk.len]
      omega
    · rw [sliceFrom.eq_def, dif_neg (by omega)]
      simp
      omega

/-- Any index below the chunk count addresses a byte strictly inside the payload. -/
theorem mul_lt_of_lt_ceilDiv (size C i : Nat) (hC : 0 < C)
    (hi : i < ceilDiv size C) : i * C < size := by
  have h5 : (i + 1) * C ≤ ceilDiv size C * C := Nat.mul_le_mul_right C (by omega)
  have h6 : ceilDiv size C * C < size + C := ceilDiv_mul_lt size C hC
  have h7 : (i + 1) * C = i * C + C := Nat.succ_mul i C
  omega

/-- The byte ranges of the chunk list, index by index. -/
theorem chunkBlob_get (size C : Nat) (i : Nat)
    (hi : i < (chunkBlob size C).length) :
    (chunkBlob size C).get ⟨i, hi⟩ = Chunk.mk (i * C) (min (i * C + C) size) := by
  simp [chunkBlob, List.get_eq_getElem]

/-- `getElem` form of `chunkBlob_get`. -/
theorem chunkBlob_getElem (size C i : Nat)
    (hi : i < (chunkBlob size C).length) :
    (chunkBlob size C)[i] = Chunk.mk (i * C) (min (i * C + C) size) := by
  simp [chunkBlob]

/-- C1: for every payload size and every chunk size `C > 0`, the chunk slicer
produces exactly `ceil(size / C)` chunks, it agrees with the `chunkBlob`
slicer, each chunk `i` is the byte range `[i*C, min (i*C + C) size)` and is
non-empty, chunks are ordered by ascending start offset and non-overlapping,
consecutive byte ranges are contiguous, the lengths sum to `size`, and the
last chunk has length `size - (count - 1) * C`. -/
theorem sliceBlobIntoChunks_spec (size C : Nat) (hC : 0 < C)
    (cs : List Chunk) (hcs : cs = sliceBlobIntoChunks size C) :
    cs.length = ceilDiv size C
    ∧ chunkBlob size C = cs
    ∧ (∀ i, ∀ hi : i < cs.length,
        (cs.get ⟨i, hi⟩).start = i * C
        ∧ (cs.get ⟨i, hi⟩).stop = min (i * C + C) size
        ∧ (cs.get ⟨i, hi⟩).start < (cs.get ⟨i, hi⟩).stop)
    ∧ (∀ i j, ∀ hi : i < cs.length, ∀ hj : j < cs.length, i < j →
        (cs.get ⟨i, hi⟩).start < (cs.get ⟨j, hj⟩).start
        ∧ (cs.get ⟨i, hi⟩).stop ≤ (cs.get ⟨j, hj⟩).start)
    ∧ (∀ i, ∀ hi : i + 1 < cs.length,
        (cs.get ⟨i, Nat.lt_of_succ_lt hi⟩).stop = (cs.get ⟨i + 1, hi⟩).start)
    ∧ (cs.map Chunk.len).sum = size
    ∧ (∀ hne : cs ≠ [], (cs.getLast hne).len = size - (cs.length - 1) * C) := by
  have hagree := chunkBlob_eq_sliceBlobIntoChunks size C hC
  have hclosed : cs = chunkBlob size C := by rw [hcs, hagree]
  subst hclosed
  have hlen : (chunkBlob size C).length = ceilDiv size C := by
    simp [chunkBlob]
  refine ⟨hlen, rfl, ?_, ?_, ?_, ?_, ?_⟩
  · intro i hi
    rw [chunkBlob_get]
    have hiN : i < ceilDiv size C := hlen ▸ hi
    have hlt : i * C < size := mul_lt_of_lt_ceilDiv size C i hC hiN
    refine ⟨rfl, rfl, ?_⟩
    simp only
    omega
  · intro i j hi hj hij
    rw [chunkBlob_get, chunkBlob_get]
    have ha : (i + 1) * C ≤ j * C := Nat.mul_le_mul_right C (by omega)
    have hb : (i + 1) * C = i * C + C := Nat.succ_mul i C
    simp only
    constructor <;> omega
  · intro i hi
    rw [chunkBlob_get, chunkBlob_get]
    have hiN : i + 1 < ceilDiv size C := hlen ▸ hi
    have hlt : (i + 1) * C < size := mul_lt_of_lt_ceilDiv size C (i + 1) hC hiN
    have hb : (i + 1) * C = i * C + C := Nat.succ_mul i C
    simp only
    omega
  · rw [hagree, sliceBlobIntoChunks]
    have := sliceFrom_len_sum C hC size size 0 (by omega)
    simpa using this
  · intro hne
    have hpos : 0 < (chunkBlob size C).length := List.length_pos.2 hne
    rw [List.getLast_eq_getElem, chunkBlob_getElem]
    have hN : 0 < ceilDiv size C := hlen ▸ hpos
    have hcov : size ≤ ceilDiv size C * C := le_ceilDiv_mul size C hC
    have hsub : (ceilDiv size C - 1) * C = ceilDiv size C * C - C := by
      rw [Nat.sub_mul, one_mul]
    have h8 : C ≤ ceilDiv size C * C := by
      calc C = 1 * C := (one_mul C).symm
      _ ≤ ceilDiv size C * C := Nat.mul_le_mul_right C hN
    rw [hlen, Chunk.len]
    simp only
    omega

/-- Witness for C1 at `size = 10`, `C = 4` (chunks `[0,4) [4,8) [8,10)`). -/
theorem sliceBlobIntoChunks_spec_witness :
    (sliceBlobIntoChunks 10 4).length = ceilDiv 10 4
    ∧ ((sliceBlobIntoChunks 10 4).map Chunk.len).sum = 10 := by
  have h := sliceBlobIntoChunks_spec 10 4 (by decide) (sliceBlobIntoChunks 10 4) rfl
  exact ⟨h.1, h.2.2.2.2.2.1⟩

/-- C2: with a positive chunk size the resume calculator returns `0` for
`uploadedBytes = 0` and `floor(uploadedBytes / chunkSize)` otherwise; at
chunk size 8,000,000 a boundary acknowledgment of 8,000,000 bytes yields
chunk index 1 (next unsent chunk) and a mid-chunk acknowledgment of
4,000,000 bytes yields chunk index 0 (re-send the same chunk). -/
theorem calculateStartingChunkIndex_spec (uploadedBytes chunkSize : Nat)
    (hC : 0 < chunkSize) :
    (uploadedBytes = 0 → calculateStartingChunkIndex uploadedBytes chunkSize = 0)
    ∧ (uploadedBytes ≠ 0 →
        calculateStartingChunkIndex uploadedBytes chunkSize =
          uploadedBytes / chunkSize)
    ∧ calculateStartingChunkIndex 8000000 8000000 = 1
    ∧ calculateStartingChunkIndex 4000000 8000000 = 0 := by
  refine ⟨?_, ?_, ?_, ?_⟩
  · intro h
    simp [calculateStartingChunkIndex, h]
  · intro h
    simp [calculateStartingChunkIndex, h]
  · decide
  · decide

/-- Witness for C2 at `uploadedBytes = 12`, `chunkSize = 5`. -/
theorem calculateStartingChunkIndex_spec_witness :
    calculateStartingChunkIndex 12 5 = 12 / 5
    ∧ calculateStartingChunkIndex 8000000 8000000 = 1 := by
  have h := calculateStartingChunkIndex_spec 12 5 (by decide)
  exact ⟨h.2.1 (by decide), h.2.2.1⟩

/-- The decision the `resume` flow of `useResumableUpload`
(src/hooks/useAuthUser.ts bundle) takes after the status query: if the
backend already acknowledged the whole file, short-circuit ("already
complete"); otherwise start the chunk walk at
`calculateStartingChunkIndex`. -/
inductive ResumeAction where
  | alreadyComplete
  | startFrom (i : Nat)
deriving DecidableEq, Repr

/-- Mirrors `if (status.uploadedBytes >= status.fileSize) ... else
calculateStartingChunkIndex(status.uploadedBytes, status.chunkSize)` in
`resume`. -/
def resumeDecision (uploadedBytes fileSize chunkSize : Nat) : ResumeAction :=
  if fileSize ≤ uploadedBytes then ResumeAction.alreadyComplete
  else ResumeAction.startFrom (calculateStartingChunkIndex uploadedBytes chunkSize)

/-- C3: for any `acknowledgedBytes ∈ [0, S]` and `chunkSize > 0` the resume
decision either signals "already complete" (exactly at `acknowledgedBytes =
S`) or yields a chunk index in `[0, ceil(S/C) - 1]`, which is a safe index
into the slicer's chunk sequence. -/
theorem resumeDecision_spec (S C ack : Nat) (hC : 0 < C) (hack : ack ≤ S) :
    (ack = S → resumeDecision ack S C = ResumeAction.alreadyComplete)
    ∧ (ack < S →
        resumeDecision ack S C =
          ResumeAction.startFrom (calculateStartingChunkIndex ack C)
        ∧ calculateStartingChunkIndex ack C ≤ ceilDiv S C - 1
        ∧ calculateStartingChunkIndex ack C < (sliceBlobIntoChunks S C).length) := by
  have hlen : (sliceBlobIntoChunks S C).length = ceilDiv S C :=
    (sliceBlobIntoChunks_spec S C hC _ rfl).1
  constructor
  · intro h
    subst h
    simp [resumeDecision]
  · intro hlt
    have hS : 0 < S := by omega
    have hNpos : 0 < ceilDiv S C := ceilDiv_pos S C hS hC
    have hidx : calculateStartingChunkIndex ack C < ceilDiv S C := by
      unfold calculateStartingChunkIndex
      by_cases h0 : ack = 0
      · simp [h0, hNpos]
      · simp only [h0, if_false]
        -- ack / C ≤ (S - 1) / C and ceilDiv S C = (S - 1) / C + 1
        have hmono : ack / C ≤ (S - 1) / C := Nat.div_le_div_right (by omega)
        have hceil : ceilDiv S C = (S - 1) / C + 1 := by
          unfold ceilDiv
          have : S + C - 1 = (S - 1) + C := by omega
          rw [this, Nat.add_div_right _ hC]
        omega
    refine ⟨?_, by omega, by omega⟩
    unfold resumeDecision
    rw [if_neg (by omega)]

/-- Witness for C3 at `S = 10`, `C = 4`, `ack = 5` (decision: re-send chunk 1). -/
theorem resumeDecision_spec_witness :
    resumeDecision 5 10 4 = ResumeAction.startFrom (calculateStartingChunkIndex 5 4)
    ∧ calculateStartingChunkIndex 5 4 < (sliceBlobIntoChunks 10 4).length := by
  have h := (resumeDecision_spec 10 4 5 (by decide) (by decide)).2 (by decide)
  exact ⟨h.1, h.2.2⟩

/-- Backend response to one chunk upload (`ChunkUploadResult` in
src/utils/resumable-upload.ts): the backend's cumulative acknowledged byte
count and its done flag. -/
structure ChunkUploadResult where
  uploadedBytes : Nat
  done : Bool
deriving DecidableEq, Repr

/-- The retry loop of `uploadChunk` (src/utils/resumable-upload.ts),
`for (attempt = 0; attempt < maxRetries; attempt++)`, with the network
modelled by `outcome : Nat → Except String ChunkUploadResult` giving each
attempt's result.  Returns the surfaced result and the list of backoff
delays (`2 ^ attempt * 1000` ms) slept between attempts.  The trailing
`throw lastError` after the loop is the `else` branch. -/
def uploadChunkAttempts (outcome : Nat → Except String ChunkUploadResult)
    (maxRetries attempt : Nat) (lastError : Option String) :
    Except String ChunkUploadResult × List Nat :=
  if attempt < maxRetries then
    match outcome attempt with
    | Except.ok r => (Except.ok r, [])
    | Except.error e =>
      if attempt = maxRetries - 1 then
        (Except.error e, [])
      else
        match uploadChunkAttempts outcome maxRetries (attempt + 1) (some e) with
        | (res, delays) => (res, 2 ^ attempt * 1000 :: delays)
  else
    (Except.error (lastError.getD "Chunk upload failed"), [])
termination_by maxRetries - attempt
decreasing_by
  omega

/-- `uploadChunk` with the source's default retry budget entry point
(attempt 0, no previous error). -/
def uploadChunk (outcome : Nat → Except String ChunkUploadResult)
    (maxRetries : Nat) : Except String ChunkUploadResult × List Nat :=
  uploadChunkAttempts outcome maxRetries 0 none

/-- The lifecycle states of `useResumableUpload` (`UploadState` in
src/hooks/useAuthUser.ts bundle). -/
inductive UploadState where
  | idle
  | initializing
  | uploading
  | completing
  | completed
  | error
  | paused
deriving DecidableEq, Repr

/-- The `UploadProgress` record (src/utils/resumable-upload.ts); the float
`percentage` is modelled in `ℚ`. -/
structure UploadProgress where
  uploadedBytes : Nat
  totalBytes : Nat
  percentage : ℚ
deriving DecidableEq, Repr

/-- `{ uploadedBytes, totalBytes: totalSize, percentage: (uploadedBytes /
totalSize) * 100 }` as built in `uploadChunks`. -/
def mkUploadProgress (uploadedBytes totalSize : Nat) : UploadProgress :=
  UploadProgress.mk uploadedBytes totalSize
    ((uploadedBytes : ℚ) / (totalSize : ℚ) * 100)

/-- Observable events of one `useResumableUpload` run: state transitions,
chunk sends, progress recomputations, the completion call, and the
sessionStorage writes of the persisted recording id. -/
inductive Ev where
  | setState (s : UploadState)
  | saveId
  | clearId
  | sendChunk (i : Nat)
  | progress (p : UploadProgress)
  | completeCall
deriving DecidableEq, Repr

/-- The sequential chunk walk of `uploadChunks` (src/hooks/useAuthUser.ts
bundle): `for (i = startFromChunk; i < chunks.length; i++)` uploads chunk
`i`, recomputes progress from the backend's acknowledged count, and breaks
when the backend reports `done`.  `oracle i` is the post-retry outcome of
`uploadChunk` for chunk `i`; an error is the exception that aborts the walk.
Returns the event trace and the propagated exception, if any. -/
def uploadChunksFrom (totalSize numChunks : Nat)
    (oracle : Nat → Except String ChunkUploadResult) (i : Nat) :
    List Ev × Option String :=
  if i < numChunks then
    match oracle i with
    | Except.error e => ([Ev.sendChunk i], some e)
    | Except.ok r =>
      if r.done then
        ([Ev.sendChunk i, Ev.progress (mkUploadProgress r.uploadedBytes totalSize)],
         none)
      else
        match uploadChunksFrom totalSize numChunks oracle (i + 1) with
        | (evs, err) =>
          (Ev.sendChunk i :: Ev.progress (mkUploadProgress r.uploadedBytes totalSize)
            :: evs, err)
  else ([], none)
termination_by numChunks - i
decreasing_by
  omega

/-- `uploadChunks(blob, recordingId, chunkSize, startFromChunk, ...)`: the
chunk count comes from slicing the blob (`sliceBlobIntoChunks`), the total
from `blob.size`. -/
def uploadChunks (blobSize chunkSize : Nat)
    (oracle : Nat → Except String ChunkUploadResult) (startFromChunk : Nat) :
    List Ev × Option String :=
  uploadChunksFrom blobSize (sliceBlobIntoChunks blobSize chunkSize).length
    oracle startFromChunk

/-- The backend's answer to the `upload-status` query (`getUploadStatus`). -/
structure UploadStatusResponse where
  uploadedBytes : Nat
  chunkSize : Nat
  fileSize : Nat
deriving DecidableEq, Repr

/-- The `upload` flow of `useResumableUpload`: initialize a session (save the
recording id before any chunk), walk all chunks from index 0, then call
completion; any thrown error lands in `error` and leaves the persisted id in
place.  `init` is the backend's `init-resumable` response (`chunkSize` on
success), `completeR` the `complete` response. -/
def uploadFlow (blobSize : Nat) (init : Except String Nat)
    (oracle : Nat → Except String ChunkUploadResult)
    (completeR : Except String Unit) : List Ev :=
  Ev.setState UploadState.initializing ::
  match init with
  | Except.error _ => [Ev.setState UploadState.error]
  | Except.ok chunkSize =>
    Ev.saveId :: Ev.setState UploadState.uploading ::
    match uploadChunks blobSize chunkSize oracle 0 with
    | (evs, some _) => evs ++ [Ev.setState UploadState.error]
    | (evs, none) =>
      evs ++ Ev.setState UploadState.completing :: Ev.completeCall ::
      match completeR with
      | Except.error _ => [Ev.setState UploadState.error]
      | Except.ok _ => [Ev.setState UploadState.completed, Ev.clearId]

/-- The `resume` flow of `useResumableUpload`: query the upload status; if the
backend already acknowledged the whole file, set state `completed`, publish
100% progress and issue the completion call without sending any chunk (note:
this branch does not clear the persisted id); otherwise walk the remaining
chunks from `calculateStartingChunkIndex` and complete as in `upload`. -/
def resumeFlow (blobSize : Nat) (statusR : Except String UploadStatusResponse)
    (oracle : Nat → Except String ChunkUploadResult)
    (completeR : Except String Unit) : List Ev :=
  Ev.setState UploadState.initializing ::
  match statusR with
  | Except.error _ => [Ev.setState UploadState.error]
  | Except.ok st =>
    if st.fileSize ≤ st.uploadedBytes then
      Ev.setState UploadState.completed ::
      Ev.progress (UploadProgress.mk st.fileSize st.fileSize 100) ::
      Ev.completeCall ::
      match completeR with
      | Except.error _ => [Ev.setState UploadState.error]
      | Except.ok _ => []
    else
      Ev.setState UploadState.uploading ::
      match uploadChunks blobSize st.chunkSize oracle
          (calculateStartingChunkIndex st.uploadedBytes st.chunkSize) with
      | (evs, some _) => evs ++ [Ev.setState UploadState.error]
      | (evs, none) =>
        evs ++ Ev.setState UploadState.completing :: Ev.completeCall ::
        match completeR with
        | Except.error _ => [Ev.setState UploadState.error]
        | Except.ok _ => [Ev.setState UploadState.completed, Ev.clearId]

/-- The `reset` flow: back to `idle`, clearing the persisted id. -/
def resetFlow : List Ev :=
  [Ev.setState UploadState.idle, Ev.clearId]

/-- Indices of the chunks sent in a trace. -/
def sentChunks (t : List Ev) : List Nat :=
  t.filterMap fun e =>
    match e with
    | Ev.sendChunk i => some i
    | _ => none

/-- Acknowledged byte counts of the progress recomputations in a trace. -/
def progressBytes (t : List Ev) : List Nat :=
  t.filterMap fun e =>
    match e with
    | Ev.progress p => some p.uploadedBytes
    | _ => none

/-- Counterexample to C4 as stated: with the default budget (`maxRetries = 3`)
and every attempt failing, the transport sleeps only the backoff delays
1000 ms and 2000 ms — a 4000 ms backoff never occurs, and only 3 attempts
(2 retries after the first) are ever made. -/
theorem uploadChunk_backoff_counterexample :
    (uploadChunk (fun _ => Except.error "network down") 3).2 = [1000, 2000]
    ∧ 4000 ∉ (uploadChunk (fun _ => Except.error "network down") 3).2
    ∧ (uploadChunk (fun _ => Except.error "network down") 3).2 ≠
        [1000, 2000, 4000] := by
  have h : uploadChunk (fun _ => Except.error "network down") 3 =
      (Except.error "network down", [1000, 2000]) := by
    simp [uploadChunk, uploadChunkAttempts]
  rw [h]
  refine ⟨rfl, by decide, by decide⟩

/-- C4 (amended): with the default budget `maxRetries = 3` the chunk
transport makes at most 3 attempts (2 retries after the first) with
exponential backoff delays of 1s and 2s between consecutive attempts; when
all 3 attempts fail it surfaces the last attempt's error, and a success on
attempt `k` returns the backend result after delays `1s, …, 2^(k-1) s`. -/
theorem uploadChunk_retry_spec (outcome : Nat → Except String ChunkUploadResult) :
    (∀ e0 e1 e2, outcome 0 = Except.error e0 → outcome 1 = Except.error e1 →
      outcome 2 = Except.error e2 →
      uploadChunk outcome 3 = (Except.error e2, [1000, 2000]))
    ∧ (∀ r, outcome 0 = Except.ok r →
        uploadChunk outcome 3 = (Except.ok r, []))
    ∧ (∀ e0 r, outcome 0 = Except.error e0 → outcome 1 = Except.ok r →
        uploadChunk outcome 3 = (Except.ok r, [1000]))
    ∧ (∀ e0 e1 r, outcome 0 = Except.error e0 → outcome 1 = Except.error e1 →
        outcome 2 = Except.ok r →
        uploadChunk outcome 3 = (Except.ok r, [1000, 2000])) := by
  refine ⟨?_, ?_, ?_, ?_⟩
  · intro e0 e1 e2 h0 h1 h2
    simp [uploadChunk, uploadChunkAttempts, h0, h1, h2]
  · intro r h0
    simp [uploadChunk, uploadChunkAttempts, h0]
  · intro e0 r h0 h1
    simp [uploadChunk, uploadChunkAttempts, h0, h1]
  · intro e0 e1 r h0 h1 h2
    simp [uploadChunk, uploadChunkAttempts, h0, h1, h2]

/-- Witness for C4 (amended) with every attempt failing. -/
theorem uploadChunk_retry_spec_witness :
    uploadChunk (fun _ => Except.error "x") 3 = (Except.error "x", [1000, 2000]) :=
  (uploadChunk_retry_spec (fun _ => Except.error "x")).1 "x" "x" "x" rfl rfl rfl

/-- The chunk walk from `start`, when every chunk before `k` is acknowledged
with `done = false` and chunk `k` comes back with `done = true`, sends
exactly the chunks `start, …, k` and stops — chunks after `k` are never
sent even if they exist. -/
theorem uploadChunksFrom_done_stops (totalSize numChunks : Nat)
    (oracle : Nat → Except String ChunkUploadResult) :
    ∀ n start k, k - start ≤ n → start ≤ k → k < numChunks →
      (∀ i, start ≤ i → i < k →
        ∃ ub, oracle i = Except.ok (ChunkUploadResult.mk ub false)) →
      (∀ ub, oracle k = Except.ok (ChunkUploadResult.mk ub true) →
        sentChunks (uploadChunksFrom totalSize numChunks oracle start).1 =
          List.range' start (k + 1 - start)
        ∧ (uploadChunksFrom totalSize numChunks oracle start).2 = none) := by
  intro n
  induction n with
  | zero =>
    intro start k hn hsk hkN hpre ub hk
    have hse : start = k := by omega
    subst hse
    rw [uploadChunksFrom.eq_def, if_pos (by omega), hk]
    simp only
    have h1 : start + 1 - start = 1 := by omega
    rw [h1, List.range'_succ]
    simp [sentChunks]
  | succ n ih =>
    intro start k hn hsk hkN hpre ub hk
    by_cases hse : start = k
    · subst hse
      rw [uploadChunksFrom.eq_def, if_pos (by omega), hk]
      simp only
      have h1 : start + 1 - start = 1 := by omega
      rw [h1, List.range'_succ]
      simp [sentChunks]
    · have hlt : start < k := by omega
      obtain ⟨ub0, h0⟩ := hpre start (by omega) (by omega)
      rw [uploadChunksFrom.eq_def, if_pos (by omega), h0]
      simp only
      have hihs := ih (start + 1) k (by omega) (by omega) hkN
        (fun i h1 h2 => hpre i (by omega) h2) ub hk
      obtain ⟨hsent, herr⟩ := hihs
      cases hrec : uploadChunksFrom totalSize numChunks oracle (start + 1) with
      | mk evs err =>
        rw [hrec] at hsent herr
        subst herr
        constructor
        · have hsent2 : sentChunks evs =
              List.range' (start + 1) (k + 1 - (start + 1)) := hsent
          show sentChunks (Ev.sendChunk start ::
              Ev.progress (mkUploadProgress ub0 totalSize) :: evs) =
            List.range' start (k + 1 - start)
          have hcons : sentChunks (Ev.sendChunk start ::
              Ev.progress (mkUploadProgress ub0 totalSize) :: evs) =
              start :: sentChunks evs := rfl
          rw [hcons, hsent2]
          have h2 : k + 1 - start = (k + 1 - (start + 1)) + 1 := by omega
          rw [h2, List.range'_succ]
        · rfl

/-- C10: as soon as a chunk acknowledgment returns `done = true` the session
stops the walk: it sends exactly chunks `start … k` of the sliced payload
and no chunk after `k`, even when further chunk indices below the chunk
count remain unsent. -/
theorem uploadChunks_done_flag_terminates (blobSize chunkSize start k : Nat)
    (oracle : Nat → Except String ChunkUploadResult)
    (hsk : start ≤ k)
    (hkN : k < (sliceBlobIntoChunks blobSize chunkSize).length)
    (hpre : ∀ i, start ≤ i → i < k →
      ∃ ub, oracle i = Except.ok (ChunkUploadResult.mk ub false))
    (ub : Nat) (hk : oracle k = Except.ok (ChunkUploadResult.mk ub true)) :
    sentChunks (uploadChunks blobSize chunkSize oracle start).1 =
      List.range' start (k + 1 - start)
    ∧ (uploadChunks blobSize chunkSize oracle start).2 = none
    ∧ k + 1 ∉ sentChunks (uploadChunks blobSize chunkSize oracle start).1 := by
  have h := uploadChunksFrom_done_stops blobSize
    (sliceBlobIntoChunks blobSize chunkSize).length oracle (k - start) start k
    (by omega) hsk hkN hpre ub hk
  refine ⟨h.1, h.2, ?_⟩
  have h1 : sentChunks (uploadChunks blobSize chunkSize oracle start).1 =
      List.range' start (k + 1 - start) := h.1
  rw [h1]
  intro hmem
  have := List.mem_range'_1.1 hmem
  omega

/-- Witness for C10: 5 chunks, backend reports done at chunk 1 — chunks 2‥4
are never sent. -/
theorem uploadChunks_done_flag_terminates_witness :
    sentChunks (uploadChunks 20 4
      (fun i => if i = 0 then Except.ok (ChunkUploadResult.mk 4 false)
                else Except.ok (ChunkUploadResult.mk 20 true)) 0).1 =
      List.range' 0 2
    ∧ 2 ∉ sentChunks (uploadChunks 20 4
      (fun i => if i = 0 then Except.ok (ChunkUploadResult.mk 4 false)
                else Except.ok (ChunkUploadResult.mk 20 true)) 0).1 := by
  have hlen : (sliceBlobIntoChunks 20 4).length = 5 := by
    rw [← chunkBlob_eq_sliceBlobIntoChunks 20 4 (by decide)]
    decide
  have h := uploadChunks_done_flag_terminates 20 4 0 1
    (fun i => if i = 0 then Except.ok (ChunkUploadResult.mk 4 false)
              else Except.ok (ChunkUploadResult.mk 20 true))
    (by omega) (by omega)
    (fun i h1 h2 => by
      have : i = 0 := by omega
      subst this
      exact ⟨4, rfl⟩)
    20 rfl
  exact ⟨h.1, h.2.2⟩

/-- The chunk walk emits only `sendChunk` and `progress` events: no state
transitions, completion calls, or storage writes happen inside it. -/
theorem uploadChunksFrom_events (totalSize numChunks : Nat)
    (oracle : Nat → Except String ChunkUploadResult) :
    ∀ n i, numChunks - i ≤ n →
      ∀ e ∈ (uploadChunksFrom totalSize numChunks oracle i).1,
        (∃ j, e = Ev.sendChunk j) ∨ (∃ p, e = Ev.progress p) := by
  intro n
  induction n with
  | zero =>
    intro i hn e he
    rw [uploadChunksFrom.eq_def, if_neg (by omega)] at he
    simp at he
  | succ n ih =>
    intro i hn e he
    by_cases hi : i < numChunks
    · rw [uploadChunksFrom.eq_def, if_pos hi] at he
      cases ho : oracle i with
      | error e2 =>
        rw [ho] at he
        simp at he
        exact Or.inl ⟨i, he⟩
      | ok r =>
        rw [ho] at he
        by_cases hd : r.done = true
        · simp [hd] at he
          rcases he with he | he
          · exact Or.inl ⟨i, he⟩
          · exact Or.inr ⟨_, he⟩
        · cases hrec : uploadChunksFrom totalSize numChunks oracle (i + 1) with
          | mk evs err =>
            rw [hrec] at he
            simp [hd] at he
            rcases he with he | he | he
            · exact Or.inl ⟨i, he⟩
            · exact Or.inr ⟨_, he⟩
            · exact ih (i + 1) (by omega) e (by rw [hrec]; exact he)
    · rw [uploadChunksFrom.eq_def, if_neg hi] at he
      simp at he

/-- No `clearId`, `setState`, `saveId` or `completeCall` event occurs inside
a chunk walk. -/
theorem uploadChunks_no_admin_events (blobSize chunkSize start : Nat)
    (oracle : Nat → Except String ChunkUploadResult) :
    Ev.clearId ∉ (uploadChunks blobSize chunkSize oracle start).1
    ∧ (∀ s, Ev.setState s ∉ (uploadChunks blobSize chunkSize oracle start).1)
    ∧ Ev.completeCall ∉ (uploadChunks blobSize chunkSize oracle start).1 := by
  have h := uploadChunksFrom_events blobSize
    (sliceBlobIntoChunks blobSize chunkSize).length oracle
    ((sliceBlobIntoChunks blobSize chunkSize).length - start) start (by omega)
  refine ⟨fun hmem => ?_, fun s hmem => ?_, fun hmem => ?_⟩ <;>
    rcases h _ hmem with ⟨j, hj⟩ | ⟨p, hp⟩ <;> simp_all

/-- Counterexample to C5 as stated: when the backend already acknowledged
the whole file, `resume` never enters the `completing` state — it jumps
straight to `completed` (and only then issues the completion call). -/
theorem resume_short_circuit_counterexample :
    Ev.setState UploadState.completing ∉
      resumeFlow 10 (Except.ok (UploadStatusResponse.mk 10 4 10))
        (fun _ => Except.error "unused") (Except.ok ())
    ∧ Ev.completeCall ∈
      resumeFlow 10 (Except.ok (UploadStatusResponse.mk 10 4 10))
        (fun _ => Except.error "unused") (Except.ok ())
    ∧ sentChunks (resumeFlow 10 (Except.ok (UploadStatusResponse.mk 10 4 10))
        (fun _ => Except.error "unused") (Except.ok ())) = [] := by
  refine ⟨?_, ?_, ?_⟩ <;> decide

/-- C5 (amended): when the backend status reports `acknowledgedBytes ≥
totalBytes`, `resume` transitions directly from `initializing` to the
`completed` state and issues the completion call without sending any chunk
(it never enters `uploading`); otherwise it computes the resume chunk index
with `calculateStartingChunkIndex` and re-enters `uploading`, walking the
chunks from that index. -/
theorem resume_flow_spec (blobSize : Nat) (st : UploadStatusResponse)
    (oracle : Nat → Except String ChunkUploadResult)
    (completeR : Except String Unit) :
    (st.fileSize ≤ st.uploadedBytes →
      (resumeFlow blobSize (Except.ok st) oracle completeR).take 2 =
        [Ev.setState UploadState.initializing, Ev.setState UploadState.completed]
      ∧ sentChunks (resumeFlow blobSize (Except.ok st) oracle completeR) = []
      ∧ Ev.completeCall ∈ resumeFlow blobSize (Except.ok st) oracle completeR
      ∧ Ev.setState UploadState.uploading ∉
          resumeFlow blobSize (Except.ok st) oracle completeR)
    ∧ (st.uploadedBytes < st.fileSize →
      ∃ tail, resumeFlow blobSize (Except.ok st) oracle completeR =
        Ev.setState UploadState.initializing :: Ev.setState UploadState.uploading ::
          ((uploadChunks blobSize st.chunkSize oracle
            (calculateStartingChunkIndex st.uploadedBytes st.chunkSize)).1 ++ tail)) := by
  constructor
  · intro h
    simp only [resumeFlow]
    rw [if_pos h]
    cases completeR with
    | error e => refine ⟨rfl, ?_, ?_, ?_⟩ <;> simp [sentChunks]
    | ok u => refine ⟨rfl, ?_, ?_, ?_⟩ <;> simp [sentChunks]
  · intro h
    simp only [resumeFlow]
    rw [if_neg (by omega)]
    cases h2 : uploadChunks blobSize st.chunkSize oracle
        (calculateStartingChunkIndex st.uploadedBytes st.chunkSize) with
    | mk evs err =>
      cases err with
      | some e => exact ⟨[Ev.setState UploadState.error], rfl⟩
      | none =>
        cases completeR with
        | error e2 =>
          exact ⟨Ev.setState UploadState.completing :: Ev.completeCall ::
            [Ev.setState UploadState.error], rfl⟩
        | ok u =>
          exact ⟨Ev.setState UploadState.completing :: Ev.completeCall ::
            [Ev.setState UploadState.completed, Ev.clearId], rfl⟩

/-- Witness for C5 (amended) at the short-circuit input. -/
theorem resume_flow_spec_witness :
    (resumeFlow 10 (Except.ok (UploadStatusResponse.mk 10 4 10))
        (fun _ => Except.error "u") (Except.ok ())).take 2 =
      [Ev.setState UploadState.initializing, Ev.setState UploadState.completed]
    ∧ sentChunks (resumeFlow 10 (Except.ok (UploadStatusResponse.mk 10 4 10))
        (fun _ => Except.error "u") (Except.ok ())) = [] := by
  have h := (resume_flow_spec 10 (UploadStatusResponse.mk 10 4 10)
    (fun _ => Except.error "u") (Except.ok ())).1 (by decide)
  exact ⟨h.1, h.2.1⟩

/-- Counterexample to C6 as stated: a `resume` that takes the "already
complete" short circuit reaches the `completed` state but never clears the
persisted session identity. -/
theorem completed_without_clear_counterexample :
    Ev.setState UploadState.completed ∈
      resumeFlow 10 (Except.ok (UploadStatusResponse.mk 10 4 10))
        (fun _ => Except.error "unused") (Except.ok ())
    ∧ Ev.clearId ∉
      resumeFlow 10 (Except.ok (UploadStatusResponse.mk 10 4 10))
        (fun _ => Except.error "unused") (Except.ok ()) := by
  constructor <;> decide

/-- In the `upload` flow the persisted identity is cleared exactly when the
flow reaches `completed`. -/
theorem uploadFlow_clearId_iff_completed (blobSize : Nat) (init : Except String Nat)
    (oracle : Nat → Except String ChunkUploadResult)
    (completeR : Except String Unit) :
    Ev.clearId ∈ uploadFlow blobSize init oracle completeR ↔
      Ev.setState UploadState.completed ∈ uploadFlow blobSize init oracle completeR := by
  cases init with
  | error e => simp [uploadFlow]
  | ok chunkSize =>
    cases h2 : uploadChunks blobSize chunkSize oracle 0 with
    | mk evs err =>
      have hA2 : Ev.clearId ∉ evs := by
        have h := (uploadChunks_no_admin_events blobSize chunkSize 0 oracle).1
        rw [h2] at h
        exact h
      have hB2 : ∀ s, Ev.setState s ∉ evs := by
        intro s
        have h := (uploadChunks_no_admin_events blobSize chunkSize 0 oracle).2.1 s
        rw [h2] at h
        exact h
      cases err with
      | some e => simp [uploadFlow, h2, hA2, hB2]
      | none =>
        cases completeR with
        | error e2 => simp [uploadFlow, h2, hA2, hB2]
        | ok u => simp [uploadFlow, h2, hA2, hB2]

/-- An `upload` flow that ends in `error` never clears the persisted
identity. -/
theorem uploadFlow_error_no_clearId (blobSize : Nat) (init : Except String Nat)
    (oracle : Nat → Except String ChunkUploadResult)
    (completeR : Except String Unit) :
    Ev.setState UploadState.error ∈ uploadFlow blobSize init oracle completeR →
      Ev.clearId ∉ uploadFlow blobSize init oracle completeR := by
  cases init with
  | error e => simp [uploadFlow]
  | ok chunkSize =>
    cases h2 : uploadChunks blobSize chunkSize oracle 0 with
    | mk evs err =>
      have hA2 : Ev.clearId ∉ evs := by
        have h := (uploadChunks_no_admin_events blobSize chunkSize 0 oracle).1
        rw [h2] at h
        exact h
      have hB2 : ∀ s, Ev.setState s ∉ evs := by
        intro s
        have h := (uploadChunks_no_admin_events blobSize chunkSize 0 oracle).2.1 s
        rw [h2] at h
        exact h
      cases err with
      | some e => simp [uploadFlow, h2, hA2, hB2]
      | none =>
        cases completeR with
        | error e2 => simp [uploadFlow, h2, hA2, hB2]
        | ok u => simp [uploadFlow, h2, hA2, hB2]

/-- In the `resume` flow a clear implies `completed` was reached (the
converse fails on the short-circuit path). -/
theorem resumeFlow_clearId_implies_completed (blobSize : Nat)
    (statusR : Except String UploadStatusResponse)
    (oracle : Nat → Except String ChunkUploadResult)
    (completeR : Except String Unit) :
    Ev.clearId ∈ resumeFlow blobSize statusR oracle completeR →
      Ev.setState UploadState.completed ∈
        resumeFlow blobSize statusR oracle completeR := by
  cases statusR with
  | error e => simp [resumeFlow]
  | ok st =>
    by_cases hst : st.fileSize ≤ st.uploadedBytes
    · cases completeR with
      | error e2 => simp [resumeFlow, hst]
      | ok u => simp [resumeFlow, hst]
    · cases h2 : uploadChunks blobSize st.chunkSize oracle
          (calculateStartingChunkIndex st.uploadedBytes st.chunkSize) with
      | mk evs err =>
        have hA2 : Ev.clearId ∉ evs := by
          have h := (uploadChunks_no_admin_events blobSize st.chunkSize
            (calculateStartingChunkIndex st.uploadedBytes st.chunkSize) oracle).1
          rw [h2] at h
          exact h
        have hB2 : ∀ s, Ev.setState s ∉ evs := by
          intro s
          have h := (uploadChunks_no_admin_events blobSize st.chunkSize
            (calculateStartingChunkIndex st.uploadedBytes st.chunkSize) oracle).2.1 s
          rw [h2] at h
          exact h
        cases err with
        | some e => simp [resumeFlow, hst, h2, hA2, hB2]
        | none =>
          cases completeR with
          | error e2 => simp [resumeFlow, hst, h2, hA2, hB2]
          | ok u => simp [resumeFlow, hst, h2, hA2, hB2]

/-- A `resume` flow that ends in `error` never clears the persisted
identity. -/
theorem resumeFlow_error_no_clearId (blobSize : Nat)
    (statusR : Except String UploadStatusResponse)
    (oracle : Nat → Except String ChunkUploadResult)
    (completeR : Except String Unit) :
    Ev.setState UploadState.error ∈ resumeFlow blobSize statusR oracle completeR →
      Ev.clearId ∉ resumeFlow blobSize statusR oracle completeR := by
  cases statusR with
  | error e => simp [resumeFlow]
  | ok st =>
    by_cases hst : st.fileSize ≤ st.uploadedBytes
    · cases completeR with
      | error e2 => simp [resumeFlow, hst]
      | ok u => simp [resumeFlow, hst]
    · cases h2 : uploadChunks blobSize st.chunkSize oracle
          (calculateStartingChunkIndex st.uploadedBytes st.chunkSize) with
      | mk evs err =>
        have hA2 : Ev.clearId ∉ evs := by
          have h := (uploadChunks_no_admin_events blobSize st.chunkSize
            (calculateStartingChunkIndex st.uploadedBytes st.chunkSize) oracle).1
          rw [h2] at h
          exact h
        have hB2 : ∀ s, Ev.setState s ∉ evs := by
          intro s
          have h := (uploadChunks_no_admin_events blobSize st.chunkSize
            (calculateStartingChunkIndex st.uploadedBytes st.chunkSize) oracle).2.1 s
          rw [h2] at h
          exact h
        cases err with
        | some e => simp [resumeFlow, hst, h2, hA2, hB2]
        | none =>
          cases completeR with
          | error e2 => simp [resumeFlow, hst, h2, hA2, hB2]
          | ok u => simp [resumeFlow, hst, h2, hA2, hB2]

/-- The normal (non-short-circuit) completion path of `resume` does clear
the persisted identity: when the status query reports the transfer
incomplete, the chunk walk finishes without an error, and the completion
call succeeds, the flow reaches `completed` and emits `clearId`. -/
theorem resumeFlow_normal_completion_clears (blobSize : Nat)
    (st : UploadStatusResponse)
    (oracle : Nat → Except String ChunkUploadResult) (u : Unit)
    (hlt : st.uploadedBytes < st.fileSize)
    (herr : (uploadChunks blobSize st.chunkSize oracle
      (calculateStartingChunkIndex st.uploadedBytes st.chunkSize)).2 = none) :
    Ev.clearId ∈ resumeFlow blobSize (Except.ok st) oracle (Except.ok u)
    ∧ Ev.setState UploadState.completed ∈
        resumeFlow blobSize (Except.ok st) oracle (Except.ok u) := by
  simp only [resumeFlow]
  rw [if_neg (by omega)]
  cases h2 : uploadChunks blobSize st.chunkSize oracle
      (calculateStartingChunkIndex st.uploadedBytes st.chunkSize) with
  | mk evs err =>
    rw [h2] at herr
    have herr2 : err = none := herr
    subst herr2
    constructor <;> simp

/-- C6 (amended): `reset` always clears the persisted identity; the `upload`
flow clears it exactly when it reaches `completed`; in the `resume` flow a
clear implies `completed` was reached and the normal chunk-walk completion
path does clear it, but the short-circuit path reaches `completed` without
clearing; and every failure path ends in `error` with the persisted
identity left in place. -/
theorem persisted_identity_spec (blobSize : Nat) (init : Except String Nat)
    (statusR : Except String UploadStatusResponse)
    (oracle : Nat → Except String ChunkUploadResult)
    (completeR : Except String Unit) :
    (Ev.clearId ∈ uploadFlow blobSize init oracle completeR ↔
      Ev.setState UploadState.completed ∈ uploadFlow blobSize init oracle completeR)
    ∧ (Ev.setState UploadState.error ∈ uploadFlow blobSize init oracle completeR →
        Ev.clearId ∉ uploadFlow blobSize init oracle completeR)
    ∧ (Ev.clearId ∈ resumeFlow blobSize statusR oracle completeR →
        Ev.setState UploadState.completed ∈
          resumeFlow blobSize statusR oracle completeR)
    ∧ (Ev.setState UploadState.error ∈ resumeFlow blobSize statusR oracle completeR →
        Ev.clearId ∉ resumeFlow blobSize statusR oracle completeR)
    ∧ (∀ st u, statusR = Except.ok st → st.uploadedBytes < st.fileSize →
        (uploadChunks blobSize st.chunkSize oracle
          (calculateStartingChunkIndex st.uploadedBytes st.chunkSize)).2 = none →
        completeR = Except.ok u →
        Ev.clearId ∈ resumeFlow blobSize statusR oracle completeR
        ∧ Ev.setState UploadState.completed ∈
            resumeFlow blobSize statusR oracle completeR)
    ∧ Ev.clearId ∈ resetFlow :=
  ⟨uploadFlow_clearId_iff_completed blobSize init oracle completeR,
   uploadFlow_error_no_clearId blobSize init oracle completeR,
   resumeFlow_clearId_implies_completed blobSize statusR oracle completeR,
   resumeFlow_error_no_clearId blobSize statusR oracle completeR,
   fun st u hst hlt herr hcomp => by
     subst hst
     subst hcomp
     exact resumeFlow_normal_completion_clears blobSize st oracle u hlt herr,
   by decide⟩

/-- Witness for C6 (amended): a failed initiation ends in `error` without
clearing the persisted identity, and a resume that walks its remaining
chunks to completion does clear it. -/
theorem persisted_identity_spec_witness :
    Ev.clearId ∉ uploadFlow 10 (Except.error "boom")
      (fun _ => Except.error "x") (Except.ok ())
    ∧ Ev.clearId ∈ resumeFlow 10 (Except.ok (UploadStatusResponse.mk 5 4 10))
        (fun _ => Except.ok (ChunkUploadResult.mk 10 true)) (Except.ok ()) := by
  constructor
  · exact (persisted_identity_spec 10 (Except.error "boom") (Except.error "s")
      (fun _ => Except.error "x") (Except.ok ())).2.1 (by decide)
  · have hlen : (sliceBlobIntoChunks 10 4).length = 3 := by
      rw [← chunkBlob_eq_sliceBlobIntoChunks 10 4 (by decide)]
      decide
    have herr1 : (uploadChunksFrom 10 3
        (fun _ => Except.ok (ChunkUploadResult.mk 10 true)) 1).2 = none := by
      rw [uploadChunksFrom.eq_def]
      simp
    have herr : (uploadChunks 10 4
        (fun _ => Except.ok (ChunkUploadResult.mk 10 true))
        (calculateStartingChunkIndex 5 4)).2 = none := by
      show (uploadChunksFrom 10 (sliceBlobIntoChunks 10 4).length
        (fun _ => Except.ok (ChunkUploadResult.mk 10 true))
        (calculateStartingChunkIndex 5 4)).2 = none
      rw [hlen]
      have hcalc : calculateStartingChunkIndex 5 4 = 1 := by decide
      rw [hcalc]
      exact herr1
    exact ((persisted_identity_spec 10 (Except.error "z")
      (Except.ok (UploadStatusResponse.mk 5 4 10))
      (fun _ => Except.ok (ChunkUploadResult.mk 10 true))
      (Except.ok ())).2.2.2.2.1 (UploadStatusResponse.mk 5 4 10) ()
      rfl (by decide) herr rfl).1

/-- Every progress value published by the chunk walk is an acknowledged-byte
count reported by the backend for some walked chunk at or after `start`. -/
theorem uploadChunksFrom_progress_source (totalSize numChunks : Nat)
    (oracle : Nat → Except String ChunkUploadResult) :
    ∀ n start, numChunks - start ≤ n →
      ∀ v ∈ progressBytes (uploadChunksFrom totalSize numChunks oracle start).1,
        ∃ j r, start ≤ j ∧ oracle j = Except.ok r ∧ v = r.uploadedBytes := by
  intro n
  induction n with
  | zero =>
    intro start hn v hv
    rw [uploadChunksFrom.eq_def, if_neg (by omega)] at hv
    simp [progressBytes] at hv
  | succ n ih =>
    intro start hn v hv
    by_cases hi : start < numChunks
    · rw [uploadChunksFrom.eq_def, if_pos hi] at hv
      cases ho : oracle start with
      | error e =>
        rw [ho] at hv
        simp [progressBytes] at hv
      | ok r =>
        rw [ho] at hv
        by_cases hd : r.done = true
        · simp [hd, progressBytes, mkUploadProgress] at hv
          exact ⟨start, r, by omega, ho, hv⟩
        · cases hrec : uploadChunksFrom totalSize numChunks oracle (start + 1) with
          | mk evs err =>
            rw [hrec] at hv
            simp [hd, progressBytes, mkUploadProgress] at hv
            rcases hv with hv | hv
            · exact ⟨start, r, by omega, ho, hv⟩
            · have hv2 : v ∈ progressBytes
                  (uploadChunksFrom totalSize numChunks oracle (start + 1)).1 := by
                rw [hrec]
                simpa [progressBytes] using hv
              obtain ⟨j, r2, hj, ho2, hvr⟩ := ih (start + 1) (by omega) v hv2
              exact ⟨j, r2, by omega, ho2, hvr⟩
    · rw [uploadChunksFrom.eq_def, if_neg hi] at hv
      simp [progressBytes] at hv

/-- When the backend's acknowledged counts are monotone over successful
chunks, the progress values published along the walk are non-decreasing. -/
theorem uploadChunksFrom_progress_pairwise (totalSize numChunks : Nat)
    (oracle : Nat → Except String ChunkUploadResult)
    (hmono : ∀ i j ri rj, i ≤ j → oracle i = Except.ok ri →
      oracle j = Except.ok rj → ri.uploadedBytes ≤ rj.uploadedBytes) :
    ∀ n start, numChunks - start ≤ n →
      List.Pairwise (· ≤ ·)
        (progressBytes (uploadChunksFrom totalSize numChunks oracle start).1) := by
  intro n
  induction n with
  | zero =>
    intro start hn
    rw [uploadChunksFrom.eq_def, if_neg (by omega)]
    simp [progressBytes]
  | succ n ih =>
    intro start hn
    by_cases hi : start < numChunks
    · rw [uploadChunksFrom.eq_def, if_pos hi]
      cases ho : oracle start with
      | error e => simp [progressBytes]
      | ok r =>
        by_cases hd : r.done = true
        · simp [hd, progressBytes]
        · cases hrec : uploadChunksFrom totalSize numChunks oracle (start + 1) with
          | mk evs err =>
            simp only [hd, if_false, Bool.false_eq_true]
            have hrest : List.Pairwise (· ≤ ·) (progressBytes evs) := by
              have h := ih (start + 1) (by omega)
              rw [hrec] at h
              exact h
            have hhead : ∀ v ∈ progressBytes evs, r.uploadedBytes ≤ v := by
              intro v hv
              have hv2 : v ∈ progressBytes
                  (uploadChunksFrom totalSize numChunks oracle (start + 1)).1 := by
                rw [hrec]
                exact hv
              obtain ⟨j, r2, hj, ho2, hvr⟩ :=
                uploadChunksFrom_progress_source totalSize numChunks oracle
                  (numChunks - (start + 1)) (start + 1) (by omega) v hv2
              subst hvr
              exact hmono start j r r2 (by omega) ho ho2
            show List.Pairwise (· ≤ ·) (progressBytes (Ev.sendChunk start ::
              Ev.progress (mkUploadProgress r.uploadedBytes totalSize) :: evs))
            have hcons : progressBytes (Ev.sendChunk start ::
                Ev.progress (mkUploadProgress r.uploadedBytes totalSize) :: evs) =
                r.uploadedBytes :: progressBytes evs := rfl
            rw [hcons, List.pairwise_cons]
            exact ⟨hhead, hrest⟩
    · rw [uploadChunksFrom.eq_def, if_neg hi]
      simp [progressBytes]

/-- Every progress record published by the chunk walk carries the payload's
total size and the percentage formula `uploadedBytes / totalBytes * 100`. -/
theorem uploadChunksFrom_progress_shape (totalSize numChunks : Nat)
    (oracle : Nat → Except String ChunkUploadResult) :
    ∀ n start, numChunks - start ≤ n →
      ∀ p, Ev.progress p ∈ (uploadChunksFrom totalSize numChunks oracle start).1 →
        ∃ ub, p = mkUploadProgress ub totalSize := by
  intro n
  induction n with
  | zero =>
    intro start hn p hp
    rw [uploadChunksFrom.eq_def, if_neg (by omega)] at hp
    simp at hp
  | succ n ih =>
    intro start hn p hp
    by_cases hi : start < numChunks
    · rw [uploadChunksFrom.eq_def, if_pos hi] at hp
      cases ho : oracle start with
      | error e =>
        rw [ho] at hp
        simp at hp
      | ok r =>
        rw [ho] at hp
        by_cases hd : r.done = true
        · simp [hd] at hp
          exact ⟨r.uploadedBytes, hp⟩
        · cases hrec : uploadChunksFrom totalSize numChunks oracle (start + 1) with
          | mk evs err =>
            rw [hrec] at hp
            simp [hd] at hp
            rcases hp with hp | hp
            · exact ⟨r.uploadedBytes, hp⟩
            · exact ih (start + 1) (by omega) p (by rw [hrec]; exact hp)
    · rw [uploadChunksFrom.eq_def, if_neg hi] at hp
      simp at hp

/-- Every chunk acknowledgment is immediately followed by a progress
recomputation carrying the backend's acknowledged count. -/
theorem uploadChunksFrom_ack_progress (totalSize numChunks : Nat)
    (oracle : Nat → Except String ChunkUploadResult) :
    ∀ n start, numChunks - start ≤ n →
      ∀ i, i ∈ sentChunks (uploadChunksFrom totalSize numChunks oracle start).1 →
      ∀ r, oracle i = Except.ok r →
        [Ev.sendChunk i, Ev.progress (mkUploadProgress r.uploadedBytes totalSize)]
          <:+: (uploadChunksFrom totalSize numChunks oracle start).1 := by
  intro n
  induction n with
  | zero =>
    intro start hn i hi r hr
    rw [uploadChunksFrom.eq_def, if_neg (by omega)] at hi
    simp [sentChunks] at hi
  | succ n ih =>
    intro start hn i hi r hr
    by_cases hlt : start < numChunks
    · rw [uploadChunksFrom.eq_def, if_pos hlt] at hi ⊢
      cases ho : oracle start with
      | error e =>
        rw [ho] at hi
        simp [sentChunks] at hi
        subst hi
        rw [ho] at hr
        exact absurd hr (by simp)
      | ok r0 =>
        rw [ho] at hi
        simp only at hi ⊢
        by_cases hd : r0.done = true
        · rw [if_pos hd] at hi ⊢
          simp [sentChunks] at hi
          subst hi
          have hrr : r = r0 := by
            rw [ho] at hr
            injection hr with h
            exact h.symm
          subst hrr
          exact ⟨[], [], rfl⟩
        · rw [if_neg hd] at hi ⊢
          cases hrec : uploadChunksFrom totalSize numChunks oracle (start + 1) with
          | mk evs err =>
            rw [hrec] at hi
            have hsc : sentChunks (Ev.sendChunk start ::
                Ev.progress (mkUploadProgress r0.uploadedBytes totalSize) :: evs) =
                start :: sentChunks evs := rfl
            have hi2 : i ∈ start :: sentChunks evs := by
              rw [← hsc]
              exact hi
            rcases List.mem_cons.1 hi2 with hi0 | hi0
            · subst hi0
              have hrr : r = r0 := by
                rw [ho] at hr
                injection hr with h
                exact h.symm
              subst hrr
              exact ⟨[], evs, rfl⟩
            · have hiarg : i ∈ sentChunks
                  (uploadChunksFrom totalSize numChunks oracle (start + 1)).1 := by
                rw [hrec]
                exact hi0
              have hinf := ih (start + 1) (by omega) i hiarg r hr
              rw [hrec] at hinf
              exact List.infix_cons (List.infix_cons hinf)
    · rw [uploadChunksFrom.eq_def, if_neg hlt] at hi
      simp [sentChunks] at hi

/-- C9: while a session is uploading, the acknowledged-byte component of the
published progress is monotonically non-decreasing across successive chunk
acknowledgments (given the backend's cumulative counts are monotone over
successful chunks, §6 interface contract), progress is recomputed
immediately after every chunk acknowledgment with the backend's count, and
every published progress record satisfies `totalBytes = blobSize` and
`percentage = uploadedBytes / totalBytes * 100`. -/
theorem progress_spec (blobSize chunkSize start : Nat)
    (oracle : Nat → Except String ChunkUploadResult)
    (hmono : ∀ i j ri rj, i ≤ j → oracle i = Except.ok ri →
      oracle j = Except.ok rj → ri.uploadedBytes ≤ rj.uploadedBytes) :
    List.Pairwise (· ≤ ·)
      (progressBytes (uploadChunks blobSize chunkSize oracle start).1)
    ∧ (∀ i, i ∈ sentChunks (uploadChunks blobSize chunkSize oracle start).1 →
        ∀ r, oracle i = Except.ok r →
          [Ev.sendChunk i, Ev.progress (mkUploadProgress r.uploadedBytes blobSize)]
            <:+: (uploadChunks blobSize chunkSize oracle start).1)
    ∧ (∀ p, Ev.progress p ∈ (uploadChunks blobSize chunkSize oracle start).1 →
        p.totalBytes = blobSize
        ∧ p.percentage = (p.uploadedBytes : ℚ) / (p.totalBytes : ℚ) * 100) := by
  refine ⟨?_, ?_, ?_⟩
  · exact uploadChunksFrom_progress_pairwise blobSize
      (sliceBlobIntoChunks blobSize chunkSize).length oracle hmono
      ((sliceBlobIntoChunks blobSize chunkSize).length - start) start (by omega)
  · intro i hi r hr
    exact uploadChunksFrom_ack_progress blobSize
      (sliceBlobIntoChunks blobSize chunkSize).length oracle
      ((sliceBlobIntoChunks blobSize chunkSize).length - start) start (by omega)
      i hi r hr
  · intro p hp
    obtain ⟨ub, hub⟩ := uploadChunksFrom_progress_shape blobSize
      (sliceBlobIntoChunks blobSize chunkSize).length oracle
      ((sliceBlobIntoChunks blobSize chunkSize).length - start) start (by omega)
      p hp
    subst hub
    exact ⟨rfl, rfl⟩

/-- Witness for C9 with a backend acknowledging `4(i+1)` bytes after chunk
`i` of a 20-byte payload in 4-byte chunks. -/
theorem progress_spec_witness :
    List.Pairwise (· ≤ ·) (progressBytes (uploadChunks 20 4
      (fun i => Except.ok (ChunkUploadResult.mk (4 * i + 4)
        (decide (20 ≤ 4 * i + 4)))) 0).1) :=
  (progress_spec 20 4 0
    (fun i => Except.ok (ChunkUploadResult.mk (4 * i + 4)
      (decide (20 ≤ 4 * i + 4))))
    (by
      intro i j ri rj hij hi hj
      injection hi with h1
      injection hj with h2
      subst h1
      subst h2
      simp only
      omega)).1

/-- Lifecycle states of `useDualUpload` (`DualUploadState` in
src/hooks/useDualUpload.ts). -/
inductive DualUploadState where
  | idle
  | initializing
  | uploading
  | completing
  | completed
  | error
deriving DecidableEq, Repr

/-- One dual upload run: the chunk counts of the two sliced streams, the two
per-stream chunk oracles (post-retry outcome of `uploadScreenChunk` /
`uploadWebcamChunk` per chunk index), and the `completeDualUpload` outcome. -/
structure DualCfg where
  sLen : Nat
  wLen : Nat
  sOracle : Nat → Except String ChunkUploadResult
  wOracle : Nat → Except String ChunkUploadResult
  completeOk : Bool

/-- Session state during the `Promise.all` of the two stream walks in
`upload` (src/hooks/useDualUpload.ts): next chunk index per stream, per-stream
finished/failed flags, the hook's lifecycle state, and whether
`completeDualUpload` has been called. -/
structure DualSt where
  sIdx : Nat
  wIdx : Nat
  sDone : Bool
  wDone : Bool
  sFailed : Bool
  wFailed : Bool
  phase : DualUploadState
  completionCalled : Bool
deriving DecidableEq, Repr

/-- State right after `initDualUpload` succeeds and both stream walks start
(`setState("uploading")`); a stream with zero chunks is finished at once
since its `for` loop never runs. -/
def dualInit (cfg : DualCfg) : DualSt :=
  DualSt.mk 0 0 (decide (cfg.sLen = 0)) (decide (cfg.wLen = 0)) false false
    DualUploadState.uploading false

/-- Interleaved small-step semantics of the dual upload: each stream walk
advances one chunk at a time in any order (`uploadStreamChunks` breaks on the
`done` flag or at the end of its chunk list); a failed chunk rejects the
`Promise.all` and the catch lands the session in `error`; the completion call
is issued only after both walks finished, and its outcome decides
`completed` versus `error`. -/
inductive DStep (cfg : DualCfg) : DualSt → DualSt → Prop where
  | screenOk (s : DualSt) (r : ChunkUploadResult) :
      s.phase = DualUploadState.uploading → s.sDone = false → s.sFailed = false →
      s.sIdx < cfg.sLen → cfg.sOracle s.sIdx = Except.ok r →
      DStep cfg s { s with sIdx := s.sIdx + 1, sDone := r.done || decide (s.sIdx + 1 = cfg.sLen) }
  | screenErr (s : DualSt) (e : String) :
      s.phase = DualUploadState.uploading → s.sDone = false → s.sFailed = false →
      s.sIdx < cfg.sLen → cfg.sOracle s.sIdx = Except.error e →
      DStep cfg s { s with sFailed := true, phase := DualUploadState.error }
  | webcamOk (s : DualSt) (r : ChunkUploadResult) :
      s.phase = DualUploadState.uploading → s.wDone = false → s.wFailed = false →
      s.wIdx < cfg.wLen → cfg.wOracle s.wIdx = Except.ok r →
      DStep cfg s { s with wIdx := s.wIdx + 1, wDone := r.done || decide (s.wIdx + 1 = cfg.wLen) }
  | webcamErr (s : DualSt) (e : String) :
      s.phase = DualUploadState.uploading → s.wDone = false → s.wFailed = false →
      s.wIdx < cfg.wLen → cfg.wOracle s.wIdx = Except.error e →
      DStep cfg s { s with wFailed := true, phase := DualUploadState.error }
  | completeStart (s : DualSt) :
      s.phase = DualUploadState.uploading → s.sDone = true → s.wDone = true →
      DStep cfg s { s with phase := DualUploadState.completing, completionCalled := true }
  | completeOk (s : DualSt) :
      s.phase = DualUploadState.completing → cfg.completeOk = true →
      DStep cfg s { s with phase := DualUploadState.completed }
  | completeErr (s : DualSt) :
      s.phase = DualUploadState.completing → cfg.completeOk = false →
      DStep cfg s { s with phase := DualUploadState.error }

/-- States reachable in one dual upload run. -/
inductive DReach (cfg : DualCfg) : DualSt → Prop where
  | init : DReach cfg (dualInit cfg)
  | step (s t : DualSt) : DReach cfg s → DStep cfg s t → DReach cfg t

/-- Run invariant: the completion call implies both streams had finished
(and the session left `uploading`), and any stream failure puts the session
in `error` with the completion call never issued. -/
theorem dualReach_invariant (cfg : DualCfg) (s : DualSt) (h : DReach cfg s) :
    (s.completionCalled = true → s.sDone = true ∧ s.wDone = true
      ∧ s.phase ≠ DualUploadState.uploading)
    ∧ ((s.sFailed = true ∨ s.wFailed = true) →
        s.phase = DualUploadState.error ∧ s.completionCalled = false) := by
  induction h with
  | init => simp [dualInit]
  | step s t hs hstep ih =>
    cases hstep with
    | screenOk r h1 h2 h3 h4 h5 =>
      refine ⟨fun hc => absurd h1 (ih.1 hc).2.2, fun hf => ?_⟩
      rcases hf with hf | hf
      · have hf2 : s.sFailed = true := hf
        rw [h3] at hf2
        exact absurd hf2 (by simp)
      · have hf2 : s.wFailed = true := hf
        have h6 := ih.2 (Or.inr hf2)
        rw [h1] at h6
        exact absurd h6.1 (by decide)
    | screenErr e h1 h2 h3 h4 h5 =>
      refine ⟨fun hc => absurd h1 (ih.1 hc).2.2, fun hf => ⟨rfl, ?_⟩⟩
      cases hcc : s.completionCalled with
      | false => rfl
      | true => exact absurd h1 (ih.1 hcc).2.2
    | webcamOk r h1 h2 h3 h4 h5 =>
      refine ⟨fun hc => absurd h1 (ih.1 hc).2.2, fun hf => ?_⟩
      rcases hf with hf | hf
      · have hf2 : s.sFailed = true := hf
        have h6 := ih.2 (Or.inl hf2)
        rw [h1] at h6
        exact absurd h6.1 (by decide)
      · have hf2 : s.wFailed = true := hf
        rw [h3] at hf2
        exact absurd hf2 (by simp)
    | webcamErr e h1 h2 h3 h4 h5 =>
      refine ⟨fun hc => absurd h1 (ih.1 hc).2.2, fun hf => ⟨rfl, ?_⟩⟩
      cases hcc : s.completionCalled with
      | false => rfl
      | true => exact absurd h1 (ih.1 hcc).2.2
    | completeStart h1 h2 h3 =>
      refine ⟨fun hc => ⟨h2, h3, by simp⟩, fun hf => ?_⟩
      have hf2 : s.sFailed = true ∨ s.wFailed = true := hf
      have h6 := ih.2 hf2
      rw [h1] at h6
      exact absurd h6.1 (by decide)
    | completeOk h1 h2 =>
      refine ⟨fun hc => ⟨(ih.1 hc).1, (ih.1 hc).2.1, by simp⟩, fun hf => ?_⟩
      have hf2 : s.sFailed = true ∨ s.wFailed = true := hf
      have h6 := ih.2 hf2
      rw [h1] at h6
      exact absurd h6.1 (by decide)
    | completeErr h1 h2 =>
      exact ⟨fun hc => ⟨(ih.1 hc).1, (ih.1 hc).2.1, by simp⟩,
        fun hf => ⟨rfl, (ih.2 hf).2⟩⟩

/-- Scenario C configuration: screen stream of 2 chunks failing on its 2nd
chunk, webcam stream of 1 chunk succeeding at once. -/
def scenarioCCfg : DualCfg :=
  DualCfg.mk 2 1
    (fun i => if i = 0 then Except.ok (ChunkUploadResult.mk 8 false)
              else Except.error "screen chunk 2 failed")
    (fun _ => Except.ok (ChunkUploadResult.mk 5 true)) true

/-- A run with two three-chunk streams, all chunks succeeding. -/
def dualIndependentCfg : DualCfg :=
  DualCfg.mk 3 3
    (fun _ => Except.ok (ChunkUploadResult.mk 1 false))
    (fun _ => Except.ok (ChunkUploadResult.mk 1 false)) true

/-- A run whose screen stream fails its first chunk. -/
def dualFailCfg : DualCfg :=
  DualCfg.mk 1 1 (fun _ => Except.error "boom")
    (fun _ => Except.ok (ChunkUploadResult.mk 1 true)) true

/-- A run with two empty streams. -/
def dualEmptyCfg : DualCfg :=
  DualCfg.mk 0 0 (fun _ => Except.error "never")
    (fun _ => Except.error "never") true

/-- C7: when either stream's chunk transport fails permanently, the dual
session is in `error` — never `completed` — and the completion call is never
issued; `error` is terminal (no step leaves it); and this holds even when
the other stream has already uploaded all of its chunks (Scenario C: webcam
fully done, screen failing on its 2nd chunk, reachable in `error`). -/
theorem dual_failure_spec :
    (∀ cfg s, DReach cfg s → (s.sFailed = true ∨ s.wFailed = true) →
      s.phase = DualUploadState.error
      ∧ s.phase ≠ DualUploadState.completed
      ∧ s.completionCalled = false)
    ∧ (∀ cfg s t, s.phase = DualUploadState.error → ¬ DStep cfg s t)
    ∧ (∃ cfg s, DReach cfg s ∧ s.wDone = true ∧ s.sFailed = true
        ∧ s.phase = DualUploadState.error) := by
  refine ⟨?_, ?_, ?_⟩
  · intro cfg s h hf
    have h6 := (dualReach_invariant cfg s h).2 hf
    refine ⟨h6.1, ?_, h6.2⟩
    rw [h6.1]
    decide
  · intro cfg s t hphase hstep
    cases hstep <;> simp_all
  · refine ⟨scenarioCCfg,
      DualSt.mk 1 1 false true true false DualUploadState.error false,
      ?_, rfl, rfl, rfl⟩
    have d1 : DReach scenarioCCfg
        (DualSt.mk 0 1 false true false false DualUploadState.uploading false) :=
      DReach.step _ _ DReach.init
        (DStep.webcamOk (dualInit scenarioCCfg) (ChunkUploadResult.mk 5 true)
          rfl rfl rfl (by decide) rfl)
    have d2 : DReach scenarioCCfg
        (DualSt.mk 1 1 false true false false DualUploadState.uploading false) :=
      DReach.step _ _ d1
        (DStep.screenOk
          (DualSt.mk 0 1 false true false false DualUploadState.uploading false)
          (ChunkUploadResult.mk 8 false) rfl rfl rfl (by decide) rfl)
    exact DReach.step _ _ d2
      (DStep.screenErr
        (DualSt.mk 1 1 false true false false DualUploadState.uploading false)
        "screen chunk 2 failed" rfl rfl rfl (by decide) rfl)

/-- Witness for C7 at a concrete run whose screen stream fails its first
chunk. -/
theorem dual_failure_spec_witness :
    (DualSt.mk 0 0 false false true false DualUploadState.error false).phase =
      DualUploadState.error
    ∧ (DualSt.mk 0 0 false false true false DualUploadState.error false).phase ≠
      DualUploadState.completed
    ∧ (DualSt.mk 0 0 false false true false
        DualUploadState.error false).completionCalled = false :=
  dual_failure_spec.1 dualFailCfg
    (DualSt.mk 0 0 false false true false DualUploadState.error false)
    (DReach.step _ _ DReach.init
      (DStep.screenErr (dualInit dualFailCfg) "boom" rfl rfl rfl (by decide) rfl))
    (Or.inl rfl)

/-- C8: the completion call is issued only after both streams have each
individually finished their chunk walk, and the two walks proceed
independently — a reachable uploading state can have the two streams at
different chunk indices. -/
theorem dual_completion_spec :
    (∀ cfg s, DReach cfg s → s.completionCalled = true →
      s.sDone = true ∧ s.wDone = true)
    ∧ (∃ cfg s, DReach cfg s ∧ s.phase = DualUploadState.uploading
        ∧ s.sIdx ≠ s.wIdx) := by
  constructor
  · intro cfg s h hc
    have h6 := (dualReach_invariant cfg s h).1 hc
    exact ⟨h6.1, h6.2.1⟩
  · refine ⟨dualIndependentCfg,
      DualSt.mk 2 0 false false false false DualUploadState.uploading false,
      ?_, rfl, by decide⟩
    have d1 : DReach dualIndependentCfg
        (DualSt.mk 1 0 false false false false DualUploadState.uploading false) :=
      DReach.step _ _ DReach.init
        (DStep.screenOk (dualInit dualIndependentCfg) (ChunkUploadResult.mk 1 false)
          rfl rfl rfl (by decide) rfl)
    exact DReach.step _ _ d1
      (DStep.screenOk
        (DualSt.mk 1 0 false false false false DualUploadState.uploading false)
        (ChunkUploadResult.mk 1 false) rfl rfl rfl (by decide) rfl)

/-- Witness for C8: a run with two empty streams issues the completion call
with both streams finished. -/
theorem dual_completion_spec_witness :
    (DualSt.mk 0 0 true true false false DualUploadState.completing true).sDone = true
    ∧ (DualSt.mk 0 0 true true false false
        DualUploadState.completing true).wDone = true :=
  dual_completion_spec.1 dualEmptyCfg
    (DualSt.mk 0 0 true true false false DualUploadState.completing true)
    (DReach.step _ _ DReach.init
      (DStep.completeStart (dualInit dualEmptyCfg) rfl rfl rfl))
    rfl

end PrismFE
